import Mathlib

/-!
# flashtensor: `Storage` and `Tensor`

A shallow embedding of `include/flashtensor/storage.hpp` and
`include/flashtensor/tensor.hpp`, followed by theorems about it.

Conventions of the embedding.

* `int64_t`, `int` and `size_t` values are mathematical integers; every
  operation that the C++ performs in a fixed width reduces its result
  explicitly (`wrap64`, `wrap32`, `to_size_t`).  Signed overflow is rendered
  as two's-complement wrap-around.
* A `std::vector<int64_t>` is a `List Int`.
* The free store is an explicit `Heap`; a `std::shared_ptr<T[]>` is the index
  of its buffer in the heap.
* Code that can throw, or that reads or writes outside a vector or buffer,
  returns `Except Fault _`.
-/

namespace FlashTensor

/-! ## Machine integers -/

/-- Reduction of an integer to the range of `int64_t` (two's complement). -/
def wrap64 (x : Int) : Int := (x + 2 ^ 63) % 2 ^ 64 - 2 ^ 63

/-- Reduction of an integer to the range of `int` (32 bits, two's complement). -/
def wrap32 (x : Int) : Int := (x + 2 ^ 31) % 2 ^ 32 - 2 ^ 31

/-- Conversion of an integer to `size_t` (64 bits, unsigned). -/
def to_size_t (x : Int) : Nat := (x % 2 ^ 64).toNat

/-- The call operator of `std::multiplies<int64_t>`: both operands are `int64_t`, so is the product. -/
def mul64 (a b : Int) : Int := wrap64 (a * b)

/-- Addition of two `int64_t` values. -/
def add64 (a b : Int) : Int := wrap64 (a + b)

/-- The values an `int64_t` can hold. -/
def in_int64 (x : Int) : Prop := -(2 ^ 63) ≤ x ∧ x < 2 ^ 63

instance (x : Int) : Decidable (in_int64 x) := by unfold in_int64; infer_instance

/-! ## Faults -/

/-- The ways an operation can fail to return.  The first two are the
`std::runtime_error`s thrown by the sources, `bad_alloc` is thrown by `new T[size]`,
and `out_of_bounds` stands for an access outside a vector or buffer, which the
sources never check and whose behaviour is undefined. -/
inductive Fault where
  | dimension_mismatch
  | invalid_device
  | bad_alloc
  | out_of_bounds
  deriving DecidableEq, Repr

deriving instance DecidableEq for Except

/-! ## storage.hpp -/

/-- The enumeration `enum class DeviceType { cpu, cuda }`, kept as its underlying
value: a `DeviceType` object can hold any value of the underlying type, which is what
the last branch of the `Storage` constructor tests for. -/
structure DeviceType where
  val : Int
  deriving DecidableEq, Repr

/-- The enumerator `DeviceType::cpu`. -/
def DeviceType.cpu : DeviceType := ⟨0⟩

/-- The enumerator `DeviceType::cuda`. -/
def DeviceType.cuda : DeviceType := ⟨1⟩

/-- The deleter a `std::shared_ptr<T[]>` was created with. -/
inductive Deleter where
  | cpu_deleter
  | mock_cuda_deleter
  deriving DecidableEq, Repr

/-- An array allocated by `new T[size]` together with the deleter of the shared
pointer that owns it. -/
structure Buffer (T : Type) where
  cells : List T
  deleter : Deleter
  deriving DecidableEq

/-- The free store: the buffers allocated so far, and the largest request
`new T[size]` can satisfy (a larger one throws `std::bad_alloc`). -/
structure Heap (T : Type) where
  bufs : List (Buffer T)
  limit : Nat
  deriving DecidableEq

/-- The expression `std::shared_ptr<T[]>(new T[size], deleter)`: a buffer of
`size` elements is added to the heap and its handle returned.  The initial
contents of the array are indeterminate in C++; `default` stands for them. -/
def allocate {T : Type} [Inhabited T] (size : Nat) (deleter : Deleter) (h : Heap T) :
    Except Fault (Nat × Heap T) :=
  if size ≤ h.limit then
    .ok (h.bufs.length, { h with bufs := h.bufs ++ [⟨List.replicate size default, deleter⟩] })
  else .error .bad_alloc

/-- The function `cpu_allocator<T>`. -/
def cpu_allocator {T : Type} [Inhabited T] (size : Nat) (h : Heap T) : Except Fault (Nat × Heap T) :=
  allocate size .cpu_deleter h

/-- The function `mock_cuda_allocator<T>`. -/
def mock_cuda_allocator {T : Type} [Inhabited T] (size : Nat) (h : Heap T) :
    Except Fault (Nat × Heap T) :=
  allocate size .mock_cuda_deleter h

/-- The class `Storage<T>`: `data_` is the handle of the shared buffer. -/
structure Storage where
  device_ : DeviceType
  size_ : Nat
  data_ : Nat
  deriving DecidableEq, Repr

/-- The constructor `Storage<T>::Storage(size_t size, DeviceType device)`. -/
def Storage.ctor {T : Type} [Inhabited T] (size : Nat) (device : DeviceType) (h : Heap T) :
    Except Fault (Storage × Heap T) :=
  if device = DeviceType.cpu then
    match cpu_allocator size h with
    | .ok (p, h1) => .ok (⟨device, size, p⟩, h1)
    | .error e => .error e
  else if device = DeviceType.cuda then
    match mock_cuda_allocator size h with
    | .ok (p, h1) => .ok (⟨device, size, p⟩, h1)
    | .error e => .error e
  else .error .invalid_device

/-- The member `Storage<T>::data()`, mutable and const alike: the handle of the buffer. -/
def Storage.data (s : Storage) : Nat := s.data_

/-- An lvalue `p[k]`: the buffer `buf` and the position `pos` in it. -/
structure Ref where
  buf : Nat
  pos : Int
  deriving DecidableEq, Repr

/-- Reading through an lvalue.  Outside the buffer the behaviour is undefined. -/
def Heap.read {T : Type} (h : Heap T) (r : Ref) : Except Fault T :=
  match h.bufs[r.buf]? with
  | none => .error .out_of_bounds
  | some b =>
    if 0 ≤ r.pos then
      match b.cells[r.pos.toNat]? with
      | some v => .ok v
      | none => .error .out_of_bounds
    else .error .out_of_bounds

/-- Assigning through an lvalue.  Outside the buffer the behaviour is undefined. -/
def Heap.write {T : Type} (h : Heap T) (r : Ref) (v : T) : Except Fault (Heap T) :=
  match h.bufs[r.buf]? with
  | none => .error .out_of_bounds
  | some b =>
    if 0 ≤ r.pos ∧ r.pos.toNat < b.cells.length then
      .ok { h with bufs := h.bufs.set r.buf { b with cells := b.cells.set r.pos.toNat v } }
    else .error .out_of_bounds

/-! ## tensor.hpp -/

/-- The alias `using DimVector = std::vector<int64_t>`. -/
abbrev DimVector := List Int

/-- The class `Tensor<T>`. -/
structure Tensor where
  shape_ : DimVector
  strides_ : DimVector
  storage_ : Storage
  offset_ : Int
  is_contiguous_ : Bool
  deriving DecidableEq, Repr

/-- The static member `compute_size`: `std::accumulate` from the seed `int64_t{1}`
with `std::multiplies<int64_t>`. -/
def compute_size (shape_ : DimVector) : Int := shape_.foldl mul64 1

/-- The loop of `std::exclusive_scan(first, last, result, init, op)` as
`compute_strides` instantiates it.  `input` is what remains of `[first, last)`;
`init` is the accumulator, whose type is that of the seed, the literal `1`, so
`int` (the standard library keeps it in a variable of the type of `init`): the
`int64_t` product is converted back to `int` at each step.  `result` is a
reverse iterator into `out`, standing at index `pos`; each step stores the old
accumulator there and moves one place towards the front.  A store outside `out` is
undefined behaviour. -/
def exclusive_scan_loop : List Int → Int → List Int → Int → Except Fault (List Int)
  | [], _, out, _ => .ok out
  | x :: rest, init, out, pos =>
    if 0 ≤ pos ∧ pos.toNat < out.length then
      exclusive_scan_loop rest (wrap32 (mul64 init x)) (out.set pos.toNat init) (pos - 1)
    else .error .out_of_bounds

/-- The member `compute_strides`:
`std::exclusive_scan(shape_.rbegin(), shape_.rend(), strides_.rbegin(), 1, std::multiplies<int64_t>())`.
Returns the new value of `strides_`. -/
def compute_strides (shape_ strides_ : DimVector) : Except Fault DimVector :=
  exclusive_scan_loop shape_.reverse 1 strides_ ((strides_.length : Int) - 1)

/-- The member initialiser `strides_{shape_.size()}` of the shape-only constructor.
It is a list-initialisation of a `std::vector<int64_t>`, for which the
initializer-list constructor takes precedence over the size constructor: the vector
has one element, whose value is the rank (the `size_t` converted to `int64_t`, a
narrowing conversion inside braces that GCC reports as a warning).  `strides_(shape_.size())`
with parentheses would have given a vector of `rank` zeros. -/
def strides_initializer (shape_ : DimVector) : DimVector := [wrap64 (shape_.length : Int)]

/-- The constructor `Tensor(DimVector shape, DeviceType device)`.  The members are
initialised in the order of their declaration, `shape_`, `strides_`, `storage_`,
`offset_` (from its default member initialiser `0`), `is_contiguous_`; the body then
runs `compute_strides`.  The `int64_t` that `compute_size` returns is converted to the
`size_t` parameter of the `Storage` constructor. -/
def Tensor.ctor_shape {T : Type} [Inhabited T] (shape : DimVector) (device : DeviceType)
    (h : Heap T) : Except Fault (Tensor × Heap T) :=
  match Storage.ctor (to_size_t (compute_size shape)) device h with
  | .error e => .error e
  | .ok (storage_, h1) =>
    match compute_strides shape (strides_initializer shape) with
    | .error e => .error e
    | .ok strides1 => .ok (⟨shape, strides1, storage_, 0, true⟩, h1)

/-- The member `check_contiguous`, its loop.  The counter `int64_t i` is kept as
the natural number `i + 1`, so the test `i >= 0` is the test for a successor and
`--i` is the predecessor; `z` is the running stride.  `strides_[i]` is read only
when `shape_[i] != 1`.  A read outside either vector is undefined behaviour. -/
def check_contiguous_loop (shape_ strides_ : DimVector) : Nat → Int → Except Fault Bool
  | 0, _ => .ok true
  | i + 1, z =>
    match shape_[i]? with
    | none => .error .out_of_bounds
    | some d =>
      if d ≠ 1 then
        match strides_[i]? with
        | none => .error .out_of_bounds
        | some s =>
          if s ≠ z then .ok false
          else check_contiguous_loop shape_ strides_ i (mul64 z d)
      else check_contiguous_loop shape_ strides_ i z

/-- The initial value of the loop counter of `check_contiguous`:
`int64_t i = shape_.size() - 1`, a subtraction in `size_t` converted to `int64_t`. -/
def check_contiguous_start (shape_ : DimVector) : Int :=
  wrap64 (((shape_.length : Int) - 1) % 2 ^ 64)

/-- The member `check_contiguous`. -/
def check_contiguous (shape_ strides_ : DimVector) : Except Fault Bool :=
  check_contiguous_loop shape_ strides_ (check_contiguous_start shape_ + 1).toNat 1

/-- The constructor `Tensor(DimVector shape, DimVector strides, Storage<T> storage, int64_t offset)`. -/
def Tensor.ctor_view (shape strides : DimVector) (storage : Storage) (offset : Int) :
    Except Fault Tensor :=
  match check_contiguous shape strides with
  | .error e => .error e
  | .ok c => .ok ⟨shape, strides, storage, offset, c⟩

/-- The copy constructor `Tensor(const Tensor<T>& other)`. -/
def Tensor.ctor_copy (other : Tensor) : Tensor :=
  ⟨other.shape_, other.strides_, other.storage_, other.offset_, other.is_contiguous_⟩

/-- The move constructor `Tensor(Tensor<T>&& other)`: the new object.  The state the
moved-from object is left in is not represented. -/
def Tensor.ctor_move (other : Tensor) : Tensor :=
  ⟨other.shape_, other.strides_, other.storage_, other.offset_, other.is_contiguous_⟩

/-- The copy assignment `operator=(const Tensor& other)`: the new value of `*this`.
`same` tells whether `this == &other`. -/
def Tensor.assign_copy (self other : Tensor) (same : Bool) : Tensor :=
  if !same then
    ⟨other.shape_, other.strides_, other.storage_, other.offset_, other.is_contiguous_⟩
  else self

/-- The move assignment `operator=(Tensor&& other)`: the new value of `*this`.
`same` tells whether `this == &other`.  The state the moved-from object is left in is
not represented. -/
def Tensor.assign_move (self other : Tensor) (same : Bool) : Tensor :=
  if !same then
    ⟨other.shape_, other.strides_, other.storage_, other.offset_, other.is_contiguous_⟩
  else self

/-- The member `is_contiguous`. -/
def Tensor.is_contiguous (t : Tensor) : Bool := t.is_contiguous_

/-- The fold expression of `get_offset`,
`( int64_t{0} + ... + (static_cast<int64_t>(indices) * strides_[Is]) )`, a left fold:
`acc` is the sum so far and `Is` the position of the next index.  `strides_[Is]`
outside `strides_` is undefined behaviour. -/
def get_offset_fold (strides_ : DimVector) : Nat → Int → List Int → Except Fault Int
  | _, acc, [] => .ok acc
  | Is, acc, i :: rest =>
    match strides_[Is]? with
    | none => .error .out_of_bounds
    | some s => get_offset_fold strides_ (Is + 1) (add64 acc (mul64 (wrap64 i) s)) rest

/-- The member `get_offset`. -/
def Tensor.get_offset (t : Tensor) (indices : List Int) : Except Fault Int :=
  get_offset_fold t.strides_ 0 0 indices

/-- The mutable `operator()(Args... indices)`: the lvalue it returns. -/
def Tensor.call (t : Tensor) (indices : List Int) : Except Fault Ref :=
  if indices.length ≠ t.shape_.length then .error .dimension_mismatch
  else
    match t.get_offset indices with
    | .error e => .error e
    | .ok k => .ok ⟨t.storage_.data, add64 t.offset_ k⟩

/-- The const `operator()(Args... indices) const`: the lvalue it returns. -/
def Tensor.call_const (t : Tensor) (indices : List Int) : Except Fault Ref :=
  if indices.length ≠ t.shape_.length then .error .dimension_mismatch
  else
    match t.get_offset indices with
    | .error e => .error e
    | .ok k => .ok ⟨t.storage_.data, add64 t.offset_ k⟩

end FlashTensor

namespace FlashTensor

/-! ## Specification-side definitions -/

/-- The row-major stride a shape implies for dimension `i`: the product of the
sizes of the dimensions after `i`, as an `int64_t`. -/
def row_major_stride (shape : DimVector) (i : Nat) : Int := wrap64 (shape.drop (i + 1)).prod

/-- Contiguity as the glossary defines it: every dimension whose size is not 1 has
the row-major stride implied by the shape. -/
def row_major_except_unit (shape strides : DimVector) : Prop :=
  ∀ i d s, shape[i]? = some d → strides[i]? = some s → d ≠ 1 → s = row_major_stride shape i

/-- The sum `Σ_d index[d] * strides[d]` over the dimensions that have an index. -/
def index_dot (indices strides : List Int) : Int := (List.zipWith (· * ·) indices strides).sum

/-- Two tensors are the same view: equal shape, strides, offset and contiguity flag,
and the same buffer handle. -/
def same_view (X Y : Tensor) : Prop :=
  X.shape_ = Y.shape_ ∧ X.strides_ = Y.strides_ ∧ X.offset_ = Y.offset_ ∧
    X.is_contiguous = Y.is_contiguous ∧ X.storage_.data = Y.storage_.data

/-- A value assigned through `X(indices...)` is the value then read through
`Y(indices...)`, for every heap of elements of type `T`. -/
def write_visible (T : Type) (X Y : Tensor) : Prop :=
  ∀ (h h1 : Heap T) (indices : List Int) (r : Ref) (v : T),
    X.call indices = .ok r → h.write r v = .ok h1 →
      ∃ r1, Y.call_const indices = .ok r1 ∧ h1.read r1 = .ok v

end FlashTensor

namespace FlashTensor

/-! ## `clone`, from the specification -/

/-- The multi-indices of a shape: one index per dimension, each at least 0 and less
than the size of its dimension. -/
def in_range : List Int → DimVector → Prop
  | [], [] => True
  | i :: rest, d :: ds => 0 ≤ i ∧ i < d ∧ in_range rest ds
  | _, _ => False

/-- The number of multi-indices of a shape; 1 for the empty shape. -/
def element_count : DimVector → Nat
  | [] => 1
  | d :: ds => d.toNat * element_count ds

/-- The freshly computed contiguous row-major strides of a shape, as the specification
gives them: each stride is the product of the sizes of the later dimensions. -/
def row_major_strides : DimVector → DimVector
  | [] => []
  | _ :: ds => wrap64 ds.prod :: row_major_strides ds

/-- The multi-index that sits at position `p` of a contiguous row-major layout. -/
def unravel : DimVector → Nat → List Int
  | [], _ => []
  | _ :: ds, p => ((p / element_count ds : Nat) : Int) :: unravel ds (p % element_count ds)

/-- The elements of `t` at the multi-indices of the given row-major positions, read
through the const `operator()`. -/
def read_elements {T : Type} (h : Heap T) (t : Tensor) : List Nat → Except Fault (List T)
  | [] => .ok []
  | p :: ps =>
    match t.call_const (unravel t.shape_ p) with
    | .error e => .error e
    | .ok r =>
      match h.read r with
      | .error e => .error e
      | .ok v =>
        match read_elements h t ps with
        | .error e => .error e
        | .ok vs => .ok (v :: vs)

/-- Replacing the contents of a buffer. -/
def Heap.fill {T : Type} (h : Heap T) (buf : Nat) (vals : List T) : Heap T :=
  match h.bufs[buf]? with
  | none => h
  | some b => { h with bufs := h.bufs.set buf { b with cells := vals } }

/-- Modelled from the spec: `Tensor::clone` is declared in `tensor.hpp` (`Tensor clone() const;`)
and defined nowhere in the sources.  Following section 4.3 of the specification, the
clone has the shape of the source, an independently owned `Storage` on the device of
the source that holds a copy of the reachable elements, offset 0, the freshly computed
row-major strides of the shape, and is contiguous.  The elements are laid out so that the
element at each multi-index of the source is at the same multi-index of the clone. -/
def Tensor.clone {T : Type} [Inhabited T] (t : Tensor) (h : Heap T) :
    Except Fault (Tensor × Heap T) :=
  match read_elements h t (List.range (element_count t.shape_)) with
  | .error e => .error e
  | .ok vals =>
    match Storage.ctor (element_count t.shape_) t.storage_.device_ h with
    | .error e => .error e
    | .ok (storage, h1) =>
      .ok (⟨t.shape_, row_major_strides t.shape_, storage, 0, true⟩, h1.fill storage.data vals)

/-- The position of a multi-index in a contiguous row-major layout, in exact arithmetic. -/
def ravel : List Int → DimVector → Int
  | i :: rest, _ :: ds => i * (element_count ds : Int) + ravel rest ds
  | _, _ => 0

/-- A non-contiguous view with a non-zero offset: the transpose of a 2 by 2 block that
starts at the second element of a buffer of five. -/
def clone_example_source : Tensor := ⟨[2, 2], [1, 2], ⟨.cpu, 5, 0⟩, 1, false⟩

/-- A heap whose only buffer holds the five elements 10, 11, 12, 13, 14. -/
def clone_example_heap : Heap Int := ⟨[⟨[10, 11, 12, 13, 14], .cpu_deleter⟩], 16⟩

end FlashTensor

namespace FlashTensor

/-! ## The two phases of the shape-only constructor -/

/-- What a run of the loop of `check_contiguous` did: the number of iterations it
started and the positions at which it read `shape_` and `strides_`. -/
structure Trace where
  iterations : Nat
  shape_reads : List Nat
  strides_reads : List Nat
  deriving DecidableEq, Repr

/-- The loop of `check_contiguous` as in `check_contiguous_loop`, recording each
iteration and each read in a `Trace`. -/
def check_contiguous_loop_log (shape_ strides_ : DimVector) :
    Nat → Int → Trace → Except Fault Bool × Trace
  | 0, _, tr => (.ok true, tr)
  | i + 1, z, tr =>
    let tr1 : Trace := ⟨tr.iterations + 1, i :: tr.shape_reads, tr.strides_reads⟩
    match shape_[i]? with
    | none => (.error .out_of_bounds, tr1)
    | some d =>
      if d ≠ 1 then
        let tr2 : Trace := ⟨tr1.iterations, tr1.shape_reads, i :: tr1.strides_reads⟩
        match strides_[i]? with
        | none => (.error .out_of_bounds, tr2)
        | some s =>
          if s ≠ z then (.ok false, tr2)
          else check_contiguous_loop_log shape_ strides_ i (mul64 z d) tr2
      else check_contiguous_loop_log shape_ strides_ i z tr1

/-- The member `check_contiguous` with the log of its loop. -/
def check_contiguous_log (shape_ strides_ : DimVector) : Except Fault Bool × Trace :=
  check_contiguous_loop_log shape_ strides_ (check_contiguous_start shape_ + 1).toNat 1 ⟨0, [], []⟩

end FlashTensor

namespace FlashTensor

/-! ## Arithmetic modulo the word size -/

theorem wrap64_modEq (x : Int) : wrap64 x ≡ x [ZMOD 2 ^ 64] := by
  unfold wrap64
  have h : (x + 2 ^ 63) % 2 ^ 64 ≡ x + 2 ^ 63 [ZMOD 2 ^ 64] := Int.mod_modEq _ _
  have h2 := h.sub_right (2 ^ 63)
  simpa using h2

theorem wrap64_congr {a b : Int} (h : a ≡ b [ZMOD 2 ^ 64]) : wrap64 a = wrap64 b := by
  unfold wrap64
  have h2 : (a + 2 ^ 63) % 2 ^ 64 = (b + 2 ^ 63) % 2 ^ 64 := h.add_right (2 ^ 63)
  rw [h2]

theorem wrap64_of_in_int64 {x : Int} (h : in_int64 x) : wrap64 x = x := by
  unfold in_int64 at h
  unfold wrap64
  norm_num at h ⊢
  omega

theorem in_int64_wrap64 (x : Int) : in_int64 (wrap64 x) := by
  unfold in_int64 wrap64
  norm_num
  omega

theorem mul64_wrap64_left (a b : Int) : mul64 (wrap64 a) b = wrap64 (a * b) :=
  wrap64_congr ((wrap64_modEq a).mul_right b)

theorem mul64_wrap64_right (a b : Int) : mul64 a (wrap64 b) = wrap64 (a * b) :=
  wrap64_congr ((wrap64_modEq b).mul_left a)

theorem add64_wrap64_left (a b : Int) : add64 (wrap64 a) b = wrap64 (a + b) :=
  wrap64_congr ((wrap64_modEq a).add_right b)

theorem add64_wrap64_right (a b : Int) : add64 a (wrap64 b) = wrap64 (a + b) :=
  wrap64_congr ((wrap64_modEq b).add_left a)

/-! ## The contiguity check -/

theorem check_contiguous_start_succ (shape : DimVector) (h : shape.length < 2 ^ 63) :
    (check_contiguous_start shape + 1).toNat = shape.length := by
  unfold check_contiguous_start wrap64
  norm_num at h ⊢
  omega

theorem check_contiguous_loop_spec (shape strides : DimVector)
    (hlen : strides.length = shape.length) :
    ∀ k, k ≤ shape.length →
      ∃ b, check_contiguous_loop shape strides k (wrap64 (shape.drop k).prod) = .ok b ∧
        (b = true ↔ ∀ i, i < k → ∀ d s, shape[i]? = some d → strides[i]? = some s →
          d ≠ 1 → s = row_major_stride shape i) := by
  intro k
  induction k with
  | zero => intro _; exact ⟨true, rfl, by simp⟩
  | succ k ih =>
    intro hk
    have hk1 : k < shape.length := hk
    have hk2 : k < strides.length := by omega
    obtain ⟨b, hb, hiff⟩ := ih (by omega)
    have hdrop : shape.drop k = shape[k] :: shape.drop (k + 1) := List.drop_eq_getElem_cons hk1
    have hprod : mul64 (wrap64 (shape.drop (k + 1)).prod) shape[k] = wrap64 (shape.drop k).prod := by
      rw [hdrop, List.prod_cons, mul64_wrap64_left, mul_comm]
    simp only [check_contiguous_loop, List.getElem?_eq_getElem hk1, List.getElem?_eq_getElem hk2]
    by_cases hd : shape[k] = 1
    · have hz : wrap64 (shape.drop (k + 1)).prod = wrap64 (shape.drop k).prod := by
        rw [hdrop, List.prod_cons, hd, one_mul]
      rw [if_neg (by simpa using hd), hz]
      refine ⟨b, hb, ?_⟩
      rw [hiff]
      constructor
      · intro h i hi d s hd1 hs hne
        rcases Nat.lt_succ_iff_lt_or_eq.mp hi with h1 | h1
        · exact h i h1 d s hd1 hs hne
        · subst h1
          rw [List.getElem?_eq_getElem hk1] at hd1
          injection hd1 with hd1
          exact absurd (hd1.symm.trans hd) hne
      · intro h i hi
        exact h i (by omega)
    · rw [if_pos hd]
      by_cases hs : strides[k] = wrap64 (shape.drop (k + 1)).prod
      · rw [if_neg (by simpa using hs), hprod]
        refine ⟨b, hb, ?_⟩
        rw [hiff]
        constructor
        · intro h i hi d s hd1 hs1 hne
          rcases Nat.lt_succ_iff_lt_or_eq.mp hi with h1 | h1
          · exact h i h1 d s hd1 hs1 hne
          · subst h1
            rw [List.getElem?_eq_getElem hk2] at hs1
            injection hs1 with hs1
            rw [← hs1, hs]; rfl
        · intro h i hi
          exact h i (by omega)
      · rw [if_pos hs]
        refine ⟨false, rfl, ?_⟩
        constructor
        · intro h; cases h
        · intro h
          exact absurd (h k (by omega) _ _ (List.getElem?_eq_getElem hk1)
            (List.getElem?_eq_getElem hk2) hd) hs

theorem check_contiguous_spec (shape strides : DimVector)
    (hlen : strides.length = shape.length) (hmax : shape.length < 2 ^ 63) :
    ∃ b, check_contiguous shape strides = .ok b ∧
      (b = true ↔ row_major_except_unit shape strides) := by
  obtain ⟨b, hb, hiff⟩ := check_contiguous_loop_spec shape strides hlen shape.length le_rfl
  refine ⟨b, ?_, ?_⟩
  · unfold check_contiguous
    rw [check_contiguous_start_succ shape hmax]
    simpa using hb
  · rw [hiff]
    unfold row_major_except_unit
    constructor
    · intro h i d s hd hs hne
      have hi : i < shape.length := by
        by_contra hc
        rw [List.getElem?_eq_none (by omega)] at hd
        cases hd
      exact h i hi d s hd hs hne
    · intro h i _ d s hd hs hne
      exact h i d s hd hs hne

/-- C3. For shape and strides of equal length, `check_contiguous` returns, and it returns
true exactly when every dimension whose size is not 1 has the row-major stride implied by
the shape, the product of the sizes of the dimensions after it taken as an `int64_t`. -/
theorem check_contiguous_iff_row_major (shape strides : DimVector)
    (hlen : strides.length = shape.length) (hmax : shape.length < 2 ^ 63) :
    ∃ b, check_contiguous shape strides = .ok b ∧
      (b = true ↔ ∀ i d s, shape[i]? = some d → strides[i]? = some s →
        d ≠ 1 → s = wrap64 (shape.drop (i + 1)).prod) :=
  check_contiguous_spec shape strides hlen hmax

end FlashTensor

namespace FlashTensor

theorem row_major_except_unit_cons (d s : Int) (ds ss : DimVector) :
    row_major_except_unit (d :: ds) (s :: ss) ↔
      (d ≠ 1 → s = wrap64 ds.prod) ∧ row_major_except_unit ds ss := by
  unfold row_major_except_unit row_major_stride
  constructor
  · intro h
    refine ⟨fun hd => ?_, fun i a b ha hb hne => ?_⟩
    · simpa using h 0 d s (by simp) (by simp) hd
    · simpa using h (i + 1) a b (by simpa using ha) (by simpa using hb) hne
  · rintro ⟨h0, h1⟩ i a b ha hb hne
    cases i with
    | zero =>
      simp only [List.getElem?_cons_zero, Option.some.injEq] at ha hb
      subst ha; subst hb
      simpa using h0 hne
    | succ i =>
      simp only [List.getElem?_cons_succ] at ha hb
      simpa using h1 i a b ha hb hne

theorem prod_insert_one (ds : DimVector) (k : Nat) :
    (ds.take k ++ 1 :: ds.drop k).prod = ds.prod := by
  rw [List.prod_append, List.prod_cons, one_mul, ← List.prod_append, List.take_append_drop]

theorem row_major_except_unit_insert (x : Int) :
    ∀ (k : Nat) (shape strides : DimVector), strides.length = shape.length →
      (row_major_except_unit (shape.take k ++ 1 :: shape.drop k)
          (strides.take k ++ x :: strides.drop k) ↔
        row_major_except_unit shape strides) := by
  intro k
  induction k with
  | zero =>
    intro shape strides _
    simp [row_major_except_unit_cons]
  | succ k ih =>
    intro shape strides hlen
    cases shape with
    | nil =>
      have hs : strides = [] := List.length_eq_zero.mp (by simpa using hlen)
      subst hs
      simp [row_major_except_unit_cons]
    | cons d ds =>
      cases strides with
      | nil => simp at hlen
      | cons s ss =>
        have hl : ss.length = ds.length := by simpa using hlen
        simp only [List.take_succ_cons, List.drop_succ_cons, List.cons_append,
          row_major_except_unit_cons, prod_insert_one, ih ds ss hl]

/-- C7. Inserting a dimension of size 1, with any stride `x`, at any position `k` of a
shape and strides of equal length does not change what `check_contiguous` returns. -/
theorem check_contiguous_insert_unit (shape strides : DimVector) (k : Nat) (x : Int)
    (hlen : strides.length = shape.length) (hmax : shape.length + 1 < 2 ^ 63) :
    check_contiguous (shape.take k ++ 1 :: shape.drop k) (strides.take k ++ x :: strides.drop k)
      = check_contiguous shape strides := by
  have hlen1 : (strides.take k ++ x :: strides.drop k).length
      = (shape.take k ++ 1 :: shape.drop k).length := by
    simp only [List.length_append, List.length_take, List.length_cons, List.length_drop, hlen]
  have hmax1 : (shape.take k ++ 1 :: shape.drop k).length < 2 ^ 63 := by
    have : (shape.take k ++ 1 :: shape.drop k).length = shape.length + 1 := by
      simp only [List.length_append, List.length_take, List.length_cons, List.length_drop]
      omega
    omega
  obtain ⟨b1, h1, hb1⟩ := check_contiguous_spec _ _ hlen1 hmax1
  obtain ⟨b, h0, hb⟩ := check_contiguous_spec shape strides hlen (by omega)
  have hiff : b1 = true ↔ b = true := by
    rw [hb1, hb]
    exact row_major_except_unit_insert x k shape strides hlen
  have : b1 = b := by
    cases b1 <;> cases b <;> simp_all
  rw [h1, h0, this]

/-- C8. A view of shape `[r, c]` with the column-major strides `[1, r]` is reported
non-contiguous whenever neither `r` nor `c` is 1. -/
theorem transposed_view_not_contiguous (r c : Int) (storage : Storage) (offset : Int)
    (hr : r ≠ 1) (hc : c ≠ 1) :
    ∃ t, Tensor.ctor_view [r, c] [1, r] storage offset = .ok t ∧ t.is_contiguous = false := by
  have h : check_contiguous [r, c] [1, r] = .ok false := by
    have hs : (check_contiguous_start [r, c] + 1).toNat = 2 :=
      check_contiguous_start_succ [r, c] (by simp)
    have hstep : check_contiguous_loop [r, c] [1, r] 2 1 =
        (if c ≠ 1 then
          (if r ≠ 1 then .ok false else check_contiguous_loop [r, c] [1, r] 1 (mul64 1 c))
        else check_contiguous_loop [r, c] [1, r] 1 1) := by
      simp only [check_contiguous_loop, List.getElem?_cons_succ, List.getElem?_cons_zero]
    unfold check_contiguous
    rw [hs, hstep, if_pos hc, if_pos hr]
  refine ⟨⟨[r, c], [1, r], storage, offset, false⟩, ?_, rfl⟩
  rw [Tensor.ctor_view, h]

end FlashTensor

namespace FlashTensor

/-! ## Element access -/

theorem wrap64_wrap64 (x : Int) : wrap64 (wrap64 x) = wrap64 x :=
  wrap64_congr (wrap64_modEq x)

theorem get_offset_fold_eq (strides : DimVector) :
    ∀ (indices : List Int) (Is : Nat) (acc : Int), wrap64 acc = acc →
      Is + indices.length ≤ strides.length →
      get_offset_fold strides Is acc indices
        = .ok (wrap64 (acc + index_dot indices (strides.drop Is))) := by
  intro indices
  induction indices with
  | nil =>
    intro Is acc hacc _
    simp [get_offset_fold, index_dot, hacc]
  | cons i rest ih =>
    intro Is acc _ hlen
    have hIs : Is < strides.length := by simp only [List.length_cons] at hlen; omega
    have hdrop : strides.drop Is = strides[Is] :: strides.drop (Is + 1) :=
      List.drop_eq_getElem_cons hIs
    have hacc1 : add64 acc (mul64 (wrap64 i) strides[Is]) = wrap64 (acc + i * strides[Is]) := by
      rw [mul64_wrap64_left, add64_wrap64_right]
    rw [get_offset_fold, List.getElem?_eq_getElem hIs]
    simp only
    rw [hacc1, ih (Is + 1) _ (wrap64_wrap64 _) (by simp only [List.length_cons] at hlen; omega),
      hdrop]
    simp only [index_dot, List.zipWith_cons_cons, List.sum_cons]
    congr 1
    apply wrap64_congr
    have := (wrap64_modEq (acc + i * strides[Is])).add_right
      (List.zipWith (· * ·) rest (List.drop (Is + 1) strides)).sum
    simpa [add_assoc] using this

theorem get_offset_fold_fault (strides : DimVector) :
    ∀ (indices : List Int) (Is : Nat) (acc : Int) (e : Fault),
      get_offset_fold strides Is acc indices = .error e → e = .out_of_bounds := by
  intro indices
  induction indices with
  | nil => intro Is acc e h; simp [get_offset_fold] at h
  | cons i rest ih =>
    intro Is acc e h
    rw [get_offset_fold] at h
    cases hs : strides[Is]? with
    | none => rw [hs] at h; simp only at h; injection h with h; exact h.symm
    | some s => rw [hs] at h; simp only at h; exact ih _ _ _ h

end FlashTensor

namespace FlashTensor

theorem get_offset_eq (t : Tensor) (indices : List Int)
    (hlen : indices.length ≤ t.strides_.length) :
    t.get_offset indices = .ok (wrap64 (index_dot indices t.strides_)) := by
  have h := get_offset_fold_eq t.strides_ indices 0 0 (by decide) (by omega)
  simpa [Tensor.get_offset] using h

theorem call_eq (t : Tensor) (indices : List Int)
    (harity : indices.length = t.shape_.length)
    (hstrides : t.shape_.length ≤ t.strides_.length) :
    t.call indices
      = .ok ⟨t.storage_.data, wrap64 (t.offset_ + index_dot indices t.strides_)⟩ := by
  have hg := get_offset_eq t indices (by omega)
  have hp : add64 t.offset_ (wrap64 (index_dot indices t.strides_))
      = wrap64 (t.offset_ + index_dot indices t.strides_) := add64_wrap64_right _ _
  rw [Tensor.call, if_neg (by simpa using harity), hg]
  simp only [hp]

theorem call_const_eq_call (t : Tensor) (indices : List Int) :
    t.call_const indices = t.call indices := by
  rw [Tensor.call_const, Tensor.call]

/-- C4. With as many indices as the rank, both `operator()` overloads return the
element of the tensor's buffer at position `offset + Σ_d index[d] * strides[d]`, the sum
being taken in `int64_t`; when that sum fits an `int64_t` the position is the sum
itself. -/
theorem call_resolves_flat_position (t : Tensor) (indices : List Int)
    (harity : indices.length = t.shape_.length)
    (hstrides : t.shape_.length ≤ t.strides_.length) :
    ∃ p, t.call indices = .ok ⟨t.storage_.data, p⟩ ∧
      t.call_const indices = .ok ⟨t.storage_.data, p⟩ ∧
      p = wrap64 (t.offset_ + index_dot indices t.strides_) ∧
      (in_int64 (t.offset_ + index_dot indices t.strides_) →
        p = t.offset_ + index_dot indices t.strides_) :=
  ⟨_, call_eq t indices harity hstrides,
    by rw [call_const_eq_call]; exact call_eq t indices harity hstrides, rfl,
    fun h => wrap64_of_in_int64 h⟩

/-- The example of C4: offset 5, strides `[10, 1]`, indices `(1, 2)` resolve to position 17. -/
theorem call_resolves_flat_position_witness :
    Tensor.call ⟨[3, 4], [10, 1], ⟨.cpu, 64, 0⟩, 5, false⟩ [1, 2] = .ok ⟨0, 17⟩ ∧
      Tensor.call_const ⟨[3, 4], [10, 1], ⟨.cpu, 64, 0⟩, 5, false⟩ [1, 2] = .ok ⟨0, 17⟩ := by
  obtain ⟨p, hc, hcc, hp, _⟩ :=
    call_resolves_flat_position ⟨[3, 4], [10, 1], ⟨.cpu, 64, 0⟩, 5, false⟩ [1, 2] rfl (by decide)
  have h17 : p = 17 := by rw [hp]; decide
  rw [h17] at hc hcc
  exact ⟨hc, hcc⟩

theorem call_fault (t : Tensor) (indices : List Int) (e : Fault)
    (harity : indices.length = t.shape_.length) (h : t.call indices = .error e) :
    e = .out_of_bounds := by
  rw [Tensor.call, if_neg (by simpa using harity)] at h
  cases hg : t.get_offset indices with
  | error e1 =>
    rw [hg] at h
    simp only at h
    injection h with h
    subst h
    exact get_offset_fold_fault _ _ _ _ _ hg
  | ok k => rw [hg] at h; simp only at h; cases h

/-- C5. Both `operator()` overloads fail with the dimension-mismatch error exactly when
the number of indices differs from the rank; with the right number of indices, on a
tensor that has a stride for each dimension, they return an element whatever the
values of the indices. -/
theorem call_dimension_mismatch_iff (t : Tensor) (indices : List Int) :
    (t.call indices = .error .dimension_mismatch ↔ indices.length ≠ t.shape_.length) ∧
    (t.call_const indices = .error .dimension_mismatch ↔ indices.length ≠ t.shape_.length) ∧
    (indices.length = t.shape_.length → t.shape_.length ≤ t.strides_.length →
      ∃ r, t.call indices = .ok r ∧ t.call_const indices = .ok r) := by
  have h1 : t.call indices = .error .dimension_mismatch ↔ indices.length ≠ t.shape_.length := by
    constructor
    · intro h harity
      have := call_fault t indices _ harity h
      cases this
    · intro h
      rw [Tensor.call, if_pos h]
  refine ⟨h1, by rw [call_const_eq_call]; exact h1, fun harity hstrides => ?_⟩
  exact ⟨_, call_eq t indices harity hstrides,
    by rw [call_const_eq_call]; exact call_eq t indices harity hstrides⟩

/-- The example of C5: a rank-3 tensor indexed with 2 indices fails with the
dimension-mismatch error, and with 3 indices far outside the shape it returns. -/
theorem call_dimension_mismatch_iff_witness :
    Tensor.call ⟨[2, 3, 4], [12, 4, 1], ⟨.cpu, 24, 0⟩, 0, true⟩ [0, 1] = .error .dimension_mismatch ∧
    ∃ r, Tensor.call ⟨[2, 3, 4], [12, 4, 1], ⟨.cpu, 24, 0⟩, 0, true⟩ [100, -7, 2 ^ 70] = .ok r ∧
      Tensor.call_const ⟨[2, 3, 4], [12, 4, 1], ⟨.cpu, 24, 0⟩, 0, true⟩ [100, -7, 2 ^ 70] = .ok r :=
  ⟨(call_dimension_mismatch_iff ⟨[2, 3, 4], [12, 4, 1], ⟨.cpu, 24, 0⟩, 0, true⟩ [0, 1]).1.mpr
      (by decide),
    (call_dimension_mismatch_iff ⟨[2, 3, 4], [12, 4, 1], ⟨.cpu, 24, 0⟩, 0, true⟩
      [100, -7, 2 ^ 70]).2.2 rfl (by decide)⟩

end FlashTensor

namespace FlashTensor

/-! ## The heap -/

theorem Heap.read_write_same {T : Type} (h h1 : Heap T) (r : Ref) (v : T)
    (hw : h.write r v = .ok h1) : h1.read r = .ok v := by
  rw [Heap.write] at hw
  cases hb : h.bufs[r.buf]? with
  | none => rw [hb] at hw; cases hw
  | some b =>
    rw [hb] at hw
    simp only at hw
    by_cases hc : 0 ≤ r.pos ∧ r.pos.toNat < b.cells.length
    · rw [if_pos hc] at hw
      injection hw with hw
      subst hw
      have hlt : r.buf < h.bufs.length := by
        by_contra hn
        rw [List.getElem?_eq_none (by omega)] at hb
        cases hb
      rw [Heap.read]
      simp only [List.getElem?_set_self hlt, if_pos hc.1, List.getElem?_set_self hc.2]
    · rw [if_neg hc] at hw
      cases hw

/-! ## Copying -/

theorem write_visible_self (T : Type) (A : Tensor) : write_visible T A A := by
  intro h h1 indices r v hc hw
  exact ⟨r, by rw [call_const_eq_call]; exact hc, Heap.read_write_same h h1 r v hw⟩

/-- C9. The copy constructor and the copy assignment give a tensor with the shape,
strides, offset, contiguity flag and buffer handle of the source, so that a value
assigned through either of the two tensors at some indices is the value read through
the other at those indices. -/
theorem copy_is_shallow (T : Type) (A self : Tensor) (same : Bool)
    (hsame : same = true → self = A) :
    (same_view (Tensor.ctor_copy A) A ∧ write_visible T A (Tensor.ctor_copy A) ∧
      write_visible T (Tensor.ctor_copy A) A) ∧
    (same_view (Tensor.assign_copy self A same) A ∧
      write_visible T A (Tensor.assign_copy self A same) ∧
      write_visible T (Tensor.assign_copy self A same) A) := by
  have h1 : Tensor.ctor_copy A = A := rfl
  have h2 : Tensor.assign_copy self A same = A := by
    cases same with
    | false => rfl
    | true => exact hsame rfl
  rw [h1, h2]
  exact ⟨⟨⟨rfl, rfl, rfl, rfl, rfl⟩, write_visible_self T A, write_visible_self T A⟩,
    ⟨rfl, rfl, rfl, rfl, rfl⟩, write_visible_self T A, write_visible_self T A⟩

set_option maxRecDepth 8000 in
/-- The example of C9: `A` of shape `[4]` on the CPU, `B = A`; the value 7 assigned to
`A(0)` is the value read from `B(0)`. -/
theorem copy_is_shallow_witness :
    Tensor.ctor_shape [4] .cpu (⟨[], 16⟩ : Heap Int)
      = .ok (⟨[4], [1], ⟨.cpu, 4, 0⟩, 0, true⟩, ⟨[⟨[0, 0, 0, 0], .cpu_deleter⟩], 16⟩) ∧
    Tensor.call ⟨[4], [1], ⟨.cpu, 4, 0⟩, 0, true⟩ [0] = .ok ⟨0, 0⟩ ∧
    Heap.write (⟨[⟨[0, 0, 0, 0], .cpu_deleter⟩], 16⟩ : Heap Int) ⟨0, 0⟩ 7
      = .ok ⟨[⟨[7, 0, 0, 0], .cpu_deleter⟩], 16⟩ ∧
    ∃ r1, Tensor.call_const (Tensor.ctor_copy ⟨[4], [1], ⟨.cpu, 4, 0⟩, 0, true⟩) [0] = .ok r1 ∧
      Heap.read (⟨[⟨[7, 0, 0, 0], .cpu_deleter⟩], 16⟩ : Heap Int) r1 = .ok 7 :=
  ⟨by decide, by decide, by decide,
    (copy_is_shallow Int ⟨[4], [1], ⟨.cpu, 4, 0⟩, 0, true⟩ ⟨[], [], ⟨.cpu, 0, 0⟩, 0, true⟩ false
      (by decide)).1.2.1 ⟨[⟨[0, 0, 0, 0], .cpu_deleter⟩], 16⟩
      ⟨[⟨[7, 0, 0, 0], .cpu_deleter⟩], 16⟩ [0] ⟨0, 0⟩ 7 (by decide) (by decide)⟩

end FlashTensor

namespace FlashTensor

/-! ## The shape-only constructor -/

theorem compute_strides_rank_two (shape : DimVector) (hr : 2 ≤ shape.length) :
    compute_strides shape (strides_initializer shape) = .error .out_of_bounds := by
  rw [compute_strides]
  cases hrev : shape.reverse with
  | nil =>
    have := congrArg List.length hrev
    simp only [List.length_reverse, List.length_nil] at this
    omega
  | cons x rest =>
    cases rest with
    | nil =>
      have := congrArg List.length hrev
      simp only [List.length_reverse, List.length_cons, List.length_nil] at this
      omega
    | cons y rest =>
      simp [strides_initializer, exclusive_scan_loop]

theorem ctor_shape_rank_two {T : Type} [Inhabited T] (shape : DimVector) (device : DeviceType)
    (h : Heap T) (hr : 2 ≤ shape.length) (p : Tensor × Heap T) :
    Tensor.ctor_shape shape device h ≠ .ok p := by
  rw [Tensor.ctor_shape]
  cases Storage.ctor (to_size_t (compute_size shape)) device h with
  | error e => simp
  | ok q =>
    obtain ⟨s, h1⟩ := q
    simp only [compute_strides_rank_two shape hr]
    simp

theorem ctor_shape_ok {T : Type} [Inhabited T] (shape : DimVector) (device : DeviceType)
    (h h1 : Heap T) (t : Tensor) (hok : Tensor.ctor_shape shape device h = .ok (t, h1)) :
    shape.length ≤ 1 ∧ t.shape_ = shape ∧ t.is_contiguous_ = true ∧ t.offset_ = 0 ∧
      compute_strides shape (strides_initializer shape) = .ok t.strides_ := by
  have hrank : shape.length ≤ 1 := by
    by_contra hc
    exact ctor_shape_rank_two shape device h (by omega) _ hok
  rw [Tensor.ctor_shape] at hok
  cases hs : Storage.ctor (to_size_t (compute_size shape)) device h with
  | error e => rw [hs] at hok; cases hok
  | ok q =>
    obtain ⟨s, h2⟩ := q
    rw [hs] at hok
    simp only at hok
    cases hc : compute_strides shape (strides_initializer shape) with
    | error e => rw [hc] at hok; cases hok
    | ok st =>
      rw [hc] at hok
      simp only at hok
      injection hok with hok
      injection hok with ht hh
      subst ht
      exact ⟨hrank, rfl, rfl, rfl, rfl⟩

theorem compute_strides_rank_le_one (shape : DimVector) (hr : shape.length ≤ 1) :
    compute_strides shape (strides_initializer shape)
      = .ok (if shape.length = 0 then [0] else [1]) := by
  cases shape with
  | nil => decide
  | cons d rest =>
    cases rest with
    | nil => simp [compute_strides, strides_initializer, exclusive_scan_loop]
    | cons e rest => simp only [List.length_cons] at hr; omega

end FlashTensor

namespace FlashTensor

set_option maxRecDepth 8000 in
/-- C1. The shape-only constructor does not give the strides of the claim.  On the
shape `[2, 3, 4]` it never returns: the strides vector it scans into has one element,
and the second store of the scan falls outside it.  Scanning into a vector of the
right length gives `[12, 4, 1]` for that shape, but `[0, 65536, 1]` for the shape
`[2, 65536, 65536]`, because the accumulator of the scan is an `int`: the first stride
is not `65536 * 65536`. -/
theorem ctor_shape_strides_defect :
    (∀ (T : Type) [Inhabited T] (device : DeviceType) (h : Heap T) (p : Tensor × Heap T),
      Tensor.ctor_shape [2, 3, 4] device h ≠ .ok p) ∧
    compute_strides [2, 3, 4] [0, 0, 0] = .ok [12, 4, 1] ∧
    compute_strides [2, 65536, 65536] [0, 0, 0] = .ok [0, 65536, 1] ∧
    mul64 65536 65536 = 4294967296 :=
  ⟨fun _ _ device h p => ctor_shape_rank_two [2, 3, 4] device h (by decide) p,
    by decide, by decide, by decide⟩

set_option maxRecDepth 8000 in
/-- C2. The strides vector of the shape-only constructor has one element, whatever the
rank: before `compute_strides` runs, and in every tensor the constructor returns, which
it does for ranks 0 and 1 only.  On the empty shape the tensor returned has rank 0 and
strides `[0]`. -/
theorem ctor_shape_strides_length :
    (∀ shape : DimVector, (strides_initializer shape).length = 1) ∧
    (∀ (T : Type) [Inhabited T] (shape : DimVector) (device : DeviceType) (h h1 : Heap T)
      (t : Tensor), Tensor.ctor_shape shape device h = .ok (t, h1) →
        t.strides_.length = 1 ∧ t.shape_.length ≤ 1) ∧
    Tensor.ctor_shape [] .cpu (⟨[], 16⟩ : Heap Int)
      = .ok (⟨[], [0], ⟨.cpu, 1, 0⟩, 0, true⟩, ⟨[⟨[0], .cpu_deleter⟩], 16⟩) ∧
    Tensor.ctor_shape [2, 3] .cpu (⟨[], 16⟩ : Heap Int) = .error .out_of_bounds := by
  refine ⟨fun _ => rfl, ?_, by decide, by decide⟩
  intro T _ shape device h h1 t hok
  obtain ⟨hrank, hshape, _, _, hstr⟩ := ctor_shape_ok shape device h h1 t hok
  rw [compute_strides_rank_le_one shape hrank] at hstr
  injection hstr with hstr
  rw [hshape, ← hstr]
  refine ⟨?_, hrank⟩
  split <;> rfl

end FlashTensor

namespace FlashTensor

/-- The example of C3: shape `[3, 1, 4]` with strides `[4, 99, 1]`. -/
theorem check_contiguous_iff_row_major_witness :
    ∃ b, check_contiguous [3, 1, 4] [4, 99, 1] = .ok b ∧
      (b = true ↔ ∀ (i : Nat) (d s : Int),
        ([3, 1, 4] : DimVector)[i]? = some d → ([4, 99, 1] : DimVector)[i]? = some s →
        d ≠ 1 → s = wrap64 (([3, 1, 4] : DimVector).drop (i + 1)).prod) :=
  check_contiguous_iff_row_major [3, 1, 4] [4, 99, 1] rfl (by norm_num)

/-- The example of C7: a dimension of size 1 with stride 99 inserted in the middle of
shape `[3, 4]`, strides `[4, 1]`; the view of shape `[3, 1, 4]` is contiguous. -/
theorem check_contiguous_insert_unit_witness :
    check_contiguous [3, 1, 4] [4, 99, 1] = check_contiguous [3, 4] [4, 1] ∧
      check_contiguous [3, 4] [4, 1] = .ok true :=
  ⟨check_contiguous_insert_unit [3, 4] [4, 1] 1 99 rfl (by norm_num), by decide⟩

/-- The example of C8: shape `[2, 3]` with strides `[1, 2]`. -/
theorem transposed_view_not_contiguous_witness :
    ∃ t, Tensor.ctor_view [2, 3] [1, 2] ⟨.cpu, 6, 0⟩ 0 = .ok t ∧ t.is_contiguous = false :=
  transposed_view_not_contiguous 2 3 ⟨.cpu, 6, 0⟩ 0 (by decide) (by decide)

end FlashTensor

namespace FlashTensor

/-! ## Row-major positions -/

theorem in_range_length : ∀ (idx : List Int) (shape : DimVector),
    in_range idx shape → idx.length = shape.length
  | [], [], _ => rfl
  | [], _ :: _, h => by simp [in_range] at h
  | _ :: _, [], h => by simp [in_range] at h
  | _ :: rest, _ :: ds, h => by
    simp only [in_range] at h
    simp only [List.length_cons, in_range_length rest ds h.2.2]

theorem element_count_eq_prod : ∀ (idx : List Int) (shape : DimVector),
    in_range idx shape → (element_count shape : Int) = shape.prod
  | [], [], _ => by simp [element_count]
  | [], _ :: _, h => by simp [in_range] at h
  | _ :: _, [], h => by simp [in_range] at h
  | i :: rest, d :: ds, h => by
    simp only [in_range] at h
    have hd : ((d.toNat : Nat) : Int) = d := Int.toNat_of_nonneg (by omega)
    simp only [element_count, List.prod_cons, Nat.cast_mul, hd,
      element_count_eq_prod rest ds h.2.2]

theorem ravel_bounds : ∀ (idx : List Int) (shape : DimVector),
    in_range idx shape → 0 ≤ ravel idx shape ∧ ravel idx shape < element_count shape
  | [], [], _ => by simp [ravel, element_count]
  | [], _ :: _, h => by simp [in_range] at h
  | _ :: _, [], h => by simp [in_range] at h
  | i :: rest, d :: ds, h => by
    simp only [in_range] at h
    obtain ⟨h0, h1⟩ := ravel_bounds rest ds h.2.2
    have hd : ((d.toNat : Nat) : Int) = d := Int.toNat_of_nonneg (by omega)
    simp only [ravel, element_count, Nat.cast_mul, hd]
    have hM : (0 : Int) ≤ element_count ds := Int.natCast_nonneg _
    constructor
    · have := mul_nonneg h.1 hM
      omega
    · have : (i + 1) * (element_count ds : Int) ≤ d * element_count ds :=
        mul_le_mul_of_nonneg_right (by omega) hM
      nlinarith

theorem unravel_ravel : ∀ (idx : List Int) (shape : DimVector),
    in_range idx shape → unravel shape (ravel idx shape).toNat = idx
  | [], [], _ => by simp [unravel]
  | [], _ :: _, h => by simp [in_range] at h
  | _ :: _, [], h => by simp [in_range] at h
  | i :: rest, d :: ds, h => by
    simp only [in_range] at h
    obtain ⟨h0, h1⟩ := ravel_bounds rest ds h.2.2
    have ih := unravel_ravel rest ds h.2.2
    obtain ⟨k, hk⟩ := Int.eq_ofNat_of_zero_le h.1
    obtain ⟨r, hr⟩ := Int.eq_ofNat_of_zero_le h0
    subst hk
    have hrM : r < element_count ds := by omega
    have hpos : (ravel ((k : Int) :: rest) (d :: ds)).toNat = k * element_count ds + r := by
      simp only [ravel, hr]
      norm_cast
    rw [hr] at ih
    simp only [Int.toNat_ofNat] at ih
    have hdiv : (k * element_count ds + r) / element_count ds = k := by
      rw [Nat.add_comm, Nat.add_mul_div_right _ _ (by omega), Nat.div_eq_of_lt hrM, Nat.zero_add]
    have hmod : (k * element_count ds + r) % element_count ds = r := by
      rw [Nat.add_comm, Nat.add_mul_mod_self_right, Nat.mod_eq_of_lt hrM]
    simp only [unravel, hpos, hdiv, hmod, ih]

theorem in_range_unravel : ∀ (shape : DimVector) (p : Nat),
    p < element_count shape → in_range (unravel shape p) shape
  | [], _, _ => by simp [unravel, in_range]
  | d :: ds, p, h => by
    simp only [element_count] at h
    have hM : 0 < element_count ds := by
      rcases Nat.eq_zero_or_pos (element_count ds) with h0 | h0
      · rw [h0] at h; simp at h
      · exact h0
    have hdiv : p / element_count ds < d.toNat := by
      rw [Nat.div_lt_iff_lt_mul hM]; exact h
    simp only [unravel, in_range]
    refine ⟨Int.natCast_nonneg _, Int.lt_toNat.mp hdiv, in_range_unravel ds _ (Nat.mod_lt _ hM)⟩

theorem index_dot_row_major : ∀ (idx : List Int) (shape : DimVector),
    in_range idx shape → index_dot idx (row_major_strides shape) ≡ ravel idx shape [ZMOD 2 ^ 64]
  | [], [], _ => by simp [index_dot, ravel, row_major_strides, Int.ModEq]
  | [], _ :: _, h => by simp [in_range] at h
  | _ :: _, [], h => by simp [in_range] at h
  | i :: rest, d :: ds, h => by
    simp only [in_range] at h
    have ih := index_dot_row_major rest ds h.2.2
    have hprod := element_count_eq_prod rest ds h.2.2
    simp only [index_dot] at ih
    simp only [index_dot, row_major_strides, ravel, List.zipWith_cons_cons, List.sum_cons, hprod]
    exact Int.ModEq.add ((wrap64_modEq ds.prod).mul_left i) ih

end FlashTensor

namespace FlashTensor

/-! ## `clone` -/

theorem Heap.read_write_other {T : Type} (h h1 : Heap T) (r r1 : Ref) (v : T)
    (hne : r.buf ≠ r1.buf) (hw : h.write r v = .ok h1) : h1.read r1 = h.read r1 := by
  rw [Heap.write] at hw
  cases hb : h.bufs[r.buf]? with
  | none => rw [hb] at hw; cases hw
  | some b =>
    rw [hb] at hw
    simp only at hw
    by_cases hc : 0 ≤ r.pos ∧ r.pos.toNat < b.cells.length
    · rw [if_pos hc] at hw
      injection hw with hw
      subst hw
      simp only [Heap.read, List.getElem?_set_ne hne]
    · rw [if_neg hc] at hw
      cases hw

theorem Storage.ctor_ok {T : Type} [Inhabited T] (size : Nat) (device : DeviceType) (h : Heap T)
    (hdev : device = .cpu ∨ device = .cuda) (hmem : size ≤ h.limit) :
    ∃ del, Storage.ctor size device h
      = .ok (⟨device, size, h.bufs.length⟩,
          ⟨h.bufs ++ [⟨List.replicate size default, del⟩], h.limit⟩) := by
  rcases hdev with hd | hd
  · refine ⟨.cpu_deleter, ?_⟩
    rw [Storage.ctor, if_pos hd, cpu_allocator, allocate, if_pos hmem]
  · refine ⟨.mock_cuda_deleter, ?_⟩
    have hne : device ≠ .cpu := by rw [hd]; decide
    rw [Storage.ctor, if_neg hne, if_pos hd, mock_cuda_allocator, allocate, if_pos hmem]

theorem Heap.fill_last {T : Type} (bufs : List (Buffer T)) (limit : Nat) (b : Buffer T)
    (vals : List T) :
    Heap.fill ⟨bufs ++ [b], limit⟩ bufs.length vals = ⟨bufs ++ [⟨vals, b.deleter⟩], limit⟩ := by
  simp [Heap.fill]

theorem Heap.read_last {T : Type} (bufs : List (Buffer T)) (limit : Nat) (b : Buffer T)
    (p : Nat) (v : T) (hv : b.cells[p]? = some v) :
    Heap.read ⟨bufs ++ [b], limit⟩ ⟨bufs.length, (p : Int)⟩ = .ok v := by
  simp [Heap.read, hv]

theorem read_elements_ok {T : Type} (h : Heap T) (t : Tensor) :
    ∀ ps : List Nat,
      (∀ p ∈ ps, ∃ r v, t.call_const (unravel t.shape_ p) = .ok r ∧ h.read r = .ok v) →
      ∃ vals, read_elements h t ps = .ok vals ∧
        ∀ (j p : Nat), ps[j]? = some p →
          ∃ r v, t.call_const (unravel t.shape_ p) = .ok r ∧ h.read r = .ok v ∧
            vals[j]? = some v := by
  intro ps
  induction ps with
  | nil => intro _; exact ⟨[], rfl, by simp⟩
  | cons p ps ih =>
    intro hall
    obtain ⟨r, v, hr, hv⟩ := hall p (List.mem_cons_self _ _)
    obtain ⟨vals, hvals, hget⟩ := ih (fun q hq => hall q (List.mem_cons_of_mem _ hq))
    refine ⟨v :: vals, ?_, ?_⟩
    · rw [read_elements, hr]
      simp only [hv, hvals]
    · intro j q hj
      cases j with
      | zero =>
        simp only [List.getElem?_cons_zero, Option.some.injEq] at hj
        subst hj
        exact ⟨r, v, hr, hv, by simp⟩
      | succ j =>
        simp only [List.getElem?_cons_succ] at hj
        obtain ⟨r1, v1, h1, h2, h3⟩ := hget j q hj
        exact ⟨r1, v1, h1, h2, by simpa using h3⟩

end FlashTensor

namespace FlashTensor

theorem row_major_strides_length : ∀ shape : DimVector,
    (row_major_strides shape).length = shape.length
  | [] => rfl
  | _ :: ds => by simp only [row_major_strides, List.length_cons, row_major_strides_length ds]

theorem call_ok_buf (t : Tensor) (indices : List Int) (r : Ref) (h : t.call indices = .ok r) :
    r.buf = t.storage_.data := by
  rw [Tensor.call] at h
  by_cases hc : indices.length ≠ t.shape_.length
  · rw [if_pos hc] at h; cases h
  · rw [if_neg hc] at h
    cases hg : t.get_offset indices with
    | error e => rw [hg] at h; cases h
    | ok k =>
      rw [hg] at h
      simp only at h
      injection h with h
      rw [← h]

theorem call_row_major (shape : DimVector) (storage : Storage) (idx : List Int)
    (hidx : in_range idx shape) (hfit : (element_count shape : Int) < 2 ^ 63) :
    ∃ p : Nat, p < element_count shape ∧ unravel shape p = idx ∧
      Tensor.call_const ⟨shape, row_major_strides shape, storage, 0, true⟩ idx
        = .ok ⟨storage.data, (p : Int)⟩ := by
  obtain ⟨h0, h1⟩ := ravel_bounds idx shape hidx
  obtain ⟨p, hp⟩ := Int.eq_ofNat_of_zero_le h0
  have hcall := call_eq ⟨shape, row_major_strides shape, storage, 0, true⟩ idx
    (in_range_length idx shape hidx) (by simp only [row_major_strides_length]; exact le_rfl)
  have hw : wrap64 (0 + index_dot idx (row_major_strides shape)) = (p : Int) := by
    rw [zero_add, wrap64_congr (index_dot_row_major idx shape hidx), hp]
    apply wrap64_of_in_int64
    unfold in_int64
    constructor <;> omega
  refine ⟨p, by omega, ?_, ?_⟩
  · have := unravel_ravel idx shape hidx
    rw [hp] at this
    simpa using this
  · rw [call_const_eq_call, hcall]
    simp only [hw]

/-- C10. Provided the elements of `A` at the multi-indices of its shape lie in its live
buffer, its device is one of the two enumerators and the allocation succeeds, `A.clone()`
returns a tensor with the shape of `A`, offset 0, the row-major strides of that shape and
the contiguity flag set, on a buffer other than that of `A`; at every multi-index the
clone holds the value `A` holds there, and no later assignment through `A` changes a
value read through the clone. -/
theorem clone_is_deep_copy (T : Type) [Inhabited T] (A : Tensor) (h : Heap T)
    (hdev : A.storage_.device_ = .cpu ∨ A.storage_.device_ = .cuda)
    (hlive : A.storage_.data < h.bufs.length)
    (hreach : ∀ idx, in_range idx A.shape_ →
      ∃ r v, A.call_const idx = .ok r ∧ h.read r = .ok v)
    (hmem : element_count A.shape_ ≤ h.limit)
    (hfit : (element_count A.shape_ : Int) < 2 ^ 63) :
    ∃ C h1, A.clone h = .ok (C, h1) ∧
      C.shape_ = A.shape_ ∧ C.offset_ = 0 ∧ C.strides_ = row_major_strides A.shape_ ∧
      C.is_contiguous = true ∧ C.storage_.data ≠ A.storage_.data ∧
      (∀ idx, in_range idx A.shape_ →
        ∃ rA rC v, A.call_const idx = .ok rA ∧ h.read rA = .ok v ∧
          C.call_const idx = .ok rC ∧ h1.read rC = .ok v) ∧
      (∀ idxA rA v h2, A.call idxA = .ok rA → h1.write rA v = .ok h2 →
        ∀ idx, in_range idx A.shape_ →
          ∃ rC, C.call_const idx = .ok rC ∧ h2.read rC = h1.read rC) := by
  have hall : ∀ p ∈ List.range (element_count A.shape_),
      ∃ r v, A.call_const (unravel A.shape_ p) = .ok r ∧ h.read r = .ok v := fun p hp =>
    hreach _ (in_range_unravel _ _ (List.mem_range.mp hp))
  obtain ⟨vals, hvals, hget⟩ := read_elements_ok h A _ hall
  obtain ⟨del, hst⟩ := Storage.ctor_ok (element_count A.shape_) A.storage_.device_ h hdev hmem
  have hclone : A.clone h = .ok (⟨A.shape_, row_major_strides A.shape_,
      ⟨A.storage_.device_, element_count A.shape_, h.bufs.length⟩, 0, true⟩,
      ⟨h.bufs ++ [⟨vals, del⟩], h.limit⟩) := by
    rw [Tensor.clone, hvals]
    simp only [hst, Storage.data, Heap.fill_last]
  refine ⟨_, _, hclone, rfl, rfl, rfl, rfl, ?_, ?_, ?_⟩
  · simp only [Storage.data] at hlive ⊢
    omega
  · intro idx hidx
    obtain ⟨p, hp, hun, hcall⟩ := call_row_major A.shape_
      ⟨A.storage_.device_, element_count A.shape_, h.bufs.length⟩ idx hidx hfit
    obtain ⟨r, v, hr, hv, hval⟩ := hget p p (by simp [List.getElem?_range hp])
    rw [hun] at hr
    exact ⟨r, _, v, hr, hv, hcall, Heap.read_last h.bufs h.limit ⟨vals, del⟩ p v hval⟩
  · intro idxA rA v h2 hcA hw idx hidx
    obtain ⟨p, _, _, hcall⟩ := call_row_major A.shape_
      ⟨A.storage_.device_, element_count A.shape_, h.bufs.length⟩ idx hidx hfit
    refine ⟨_, hcall, Heap.read_write_other _ _ _ _ _ ?_ hw⟩
    rw [call_ok_buf A idxA rA hcA]
    simp only [Storage.data] at hlive ⊢
    omega

end FlashTensor

namespace FlashTensor

set_option maxRecDepth 8000 in
theorem clone_example_reachable (idx : List Int) (hidx : in_range idx clone_example_source.shape_) :
    ∃ r v, clone_example_source.call_const idx = .ok r ∧ clone_example_heap.read r = .ok v := by
  match idx, hidx with
  | [i, j], h =>
    simp only [clone_example_source, in_range] at h
    obtain ⟨hi0, hi1, hj0, hj1, _⟩ := h
    have hi : i = 0 ∨ i = 1 := by omega
    have hj : j = 0 ∨ j = 1 := by omega
    rcases hi with rfl | rfl <;> rcases hj with rfl | rfl
    · exact ⟨⟨0, 1⟩, 11, by decide, by decide⟩
    · exact ⟨⟨0, 3⟩, 13, by decide, by decide⟩
    · exact ⟨⟨0, 2⟩, 12, by decide, by decide⟩
    · exact ⟨⟨0, 4⟩, 14, by decide, by decide⟩
  | [], h => simp [clone_example_source, in_range] at h
  | [_], h => simp [clone_example_source, in_range] at h
  | _ :: _ :: _ :: _, h => simp [clone_example_source, in_range] at h

set_option maxRecDepth 8000 in
/-- An instance of C10: the clone of a transposed view with offset 1 is the contiguous
tensor of strides `[2, 1]` on a new buffer holding 11, 13, 12, 14. -/
theorem clone_is_deep_copy_witness :
    Tensor.clone clone_example_source clone_example_heap
      = .ok (⟨[2, 2], [2, 1], ⟨.cpu, 4, 1⟩, 0, true⟩,
          ⟨[⟨[10, 11, 12, 13, 14], .cpu_deleter⟩, ⟨[11, 13, 12, 14], .cpu_deleter⟩], 16⟩) ∧
    ∃ C h1, Tensor.clone clone_example_source clone_example_heap = .ok (C, h1) ∧
      C.shape_ = clone_example_source.shape_ ∧ C.offset_ = 0 ∧
      C.strides_ = row_major_strides clone_example_source.shape_ ∧
      C.is_contiguous = true ∧ C.storage_.data ≠ clone_example_source.storage_.data ∧
      (∀ idx, in_range idx clone_example_source.shape_ →
        ∃ rA rC v, clone_example_source.call_const idx = .ok rA ∧
          clone_example_heap.read rA = .ok v ∧
          C.call_const idx = .ok rC ∧ h1.read rC = .ok v) ∧
      (∀ idxA rA v h2, clone_example_source.call idxA = .ok rA → h1.write rA v = .ok h2 →
        ∀ idx, in_range idx clone_example_source.shape_ →
          ∃ rC, C.call_const idx = .ok rC ∧ h2.read rC = h1.read rC) :=
  ⟨by decide,
    clone_is_deep_copy Int clone_example_source clone_example_heap (Or.inl rfl) (by decide)
      clone_example_reachable (by decide) (by decide)⟩

end FlashTensor

namespace FlashTensor

/-! ## Allocation by the shape-only constructor -/

end FlashTensor

namespace FlashTensor

theorem check_contiguous_loop_total (shape strides : DimVector)
    (hlen : shape.length ≤ strides.length) :
    ∀ k, k ≤ shape.length → ∀ z, ∃ b, check_contiguous_loop shape strides k z = .ok b := by
  intro k
  induction k with
  | zero => intro _ z; exact ⟨true, rfl⟩
  | succ k ih =>
    intro hk z
    have hk1 : k < shape.length := hk
    have hk2 : k < strides.length := by omega
    simp only [check_contiguous_loop, List.getElem?_eq_getElem hk1, List.getElem?_eq_getElem hk2]
    by_cases hd : shape[k] = 1
    · rw [if_neg (by simpa using hd)]
      exact ih (by omega) z
    · rw [if_pos hd]
      by_cases hs : strides[k] = z
      · rw [if_neg (by simpa using hs)]
        exact ih (by omega) _
      · rw [if_pos hs]
        exact ⟨false, rfl⟩

theorem check_contiguous_total (shape strides : DimVector)
    (hlen : shape.length ≤ strides.length) (hmax : shape.length < 2 ^ 63) :
    ∃ b, check_contiguous shape strides = .ok b := by
  rw [check_contiguous, check_contiguous_start_succ shape hmax]
  exact check_contiguous_loop_total shape strides hlen _ le_rfl 1

/-- C12, as stated, fails: a view constructed with shape `[2]` and no strides reads
`strides_[0]` outside the vector in `check_contiguous`. -/
theorem ctor_view_short_strides :
    Tensor.ctor_view [2] [] ⟨.cpu, 4, 0⟩ 0 = .error .out_of_bounds := by
  decide

/-- C12, amended. With at least as many strides as dimensions, the view constructor
succeeds for every storage and offset, keeps the shape, strides, storage and offset it
was given, and sets the contiguity flag to what `check_contiguous` returns. -/
theorem ctor_view_no_validation (shape strides : DimVector) (storage : Storage) (offset : Int)
    (hlen : shape.length ≤ strides.length) (hmax : shape.length < 2 ^ 63) :
    ∃ c, check_contiguous shape strides = .ok c ∧
      Tensor.ctor_view shape strides storage offset = .ok ⟨shape, strides, storage, offset, c⟩ := by
  obtain ⟨c, hc⟩ := check_contiguous_total shape strides hlen hmax
  exact ⟨c, hc, by rw [Tensor.ctor_view, hc]⟩

/-- An instance of C12: strides and offset that reach far outside a one-element storage. -/
theorem ctor_view_no_validation_witness :
    ∃ c, check_contiguous [2, 3] [1000, 7] = .ok c ∧
      Tensor.ctor_view [2, 3] [1000, 7] ⟨.cpu, 1, 0⟩ 1000000
        = .ok ⟨[2, 3], [1000, 7], ⟨.cpu, 1, 0⟩, 1000000, c⟩ :=
  ctor_view_no_validation [2, 3] [1000, 7] ⟨.cpu, 1, 0⟩ 1000000 (by decide) (by norm_num)

end FlashTensor

namespace FlashTensor

/-! ## The `Storage` constructor -/

theorem allocate_fault {T : Type} [Inhabited T] (size : Nat) (del : Deleter) (h : Heap T)
    (e : Fault) (he : allocate size del h = .error e) : e = .bad_alloc := by
  rw [allocate] at he
  by_cases hc : size ≤ h.limit
  · rw [if_pos hc] at he; cases he
  · rw [if_neg hc] at he
    injection he with he
    exact he.symm

/-- C13. `Storage(size, device)` fails with the invalid-device error exactly when the
device is neither `cpu` nor `cuda`.  For `cpu` and for `cuda`, when `new T[size]` can be
satisfied, it returns a `Storage` that records the device and the size and whose buffer
is a new one of exactly `size` elements with the deleter of the device, `cpu_deleter`
for `cpu` and `mock_cuda_deleter` for `cuda`. -/
theorem storage_ctor_device (T : Type) [Inhabited T] (size : Nat) (device : DeviceType)
    (h : Heap T) :
    (Storage.ctor size device h = .error .invalid_device ↔
      device ≠ .cpu ∧ device ≠ .cuda) ∧
    ((device = .cpu ∨ device = .cuda) → size ≤ h.limit →
      ∃ s h1 b, Storage.ctor size device h = .ok (s, h1) ∧
        s.device_ = device ∧ s.size_ = size ∧
        h.bufs[s.data]? = none ∧ h1.bufs[s.data]? = some b ∧ b.cells.length = size ∧
        b.deleter = (if device = .cpu then .cpu_deleter else .mock_cuda_deleter)) := by
  constructor
  · constructor
    · intro herr
      by_cases hcpu : device = .cpu
      · rw [Storage.ctor, if_pos hcpu, cpu_allocator] at herr
        cases ha : allocate size .cpu_deleter h with
        | error e =>
          rw [ha] at herr
          simp only at herr
          injection herr with herr
          have := allocate_fault size _ h e ha
          rw [herr] at this
          cases this
        | ok q => rw [ha] at herr; cases herr
      · by_cases hcuda : device = .cuda
        · rw [Storage.ctor, if_neg hcpu, if_pos hcuda, mock_cuda_allocator] at herr
          cases ha : allocate size .mock_cuda_deleter h with
          | error e =>
            rw [ha] at herr
            simp only at herr
            injection herr with herr
            have := allocate_fault size _ h e ha
            rw [herr] at this
            cases this
          | ok q => rw [ha] at herr; cases herr
        · exact ⟨hcpu, hcuda⟩
    · rintro ⟨hcpu, hcuda⟩
      rw [Storage.ctor, if_neg hcpu, if_neg hcuda]
  · intro hdev hmem
    rcases hdev with hd | hd
    · refine ⟨⟨device, size, h.bufs.length⟩,
        ⟨h.bufs ++ [⟨List.replicate size default, .cpu_deleter⟩], h.limit⟩,
        ⟨List.replicate size default, .cpu_deleter⟩, ?_, rfl, rfl, ?_, ?_, ?_, ?_⟩
      · rw [Storage.ctor, if_pos hd, cpu_allocator, allocate, if_pos hmem]
      · simp [Storage.data]
      · simp [Storage.data]
      · simp
      · rw [if_pos hd]
    · have hne : device ≠ .cpu := by rw [hd]; decide
      refine ⟨⟨device, size, h.bufs.length⟩,
        ⟨h.bufs ++ [⟨List.replicate size default, .mock_cuda_deleter⟩], h.limit⟩,
        ⟨List.replicate size default, .mock_cuda_deleter⟩, ?_, rfl, rfl, ?_, ?_, ?_, ?_⟩
      · rw [Storage.ctor, if_neg hne, if_pos hd, mock_cuda_allocator, allocate, if_pos hmem]
      · simp [Storage.data]
      · simp [Storage.data]
      · simp
      · rw [if_neg hne]

set_option maxRecDepth 8000 in
/-- Instances of C13: a device value outside the enumeration is refused, and a `cuda`
storage of three elements is released by `mock_cuda_deleter`. -/
theorem storage_ctor_device_witness :
    Storage.ctor 3 ⟨2⟩ (⟨[], 16⟩ : Heap Int) = .error .invalid_device ∧
    Storage.ctor 3 .cuda (⟨[], 16⟩ : Heap Int)
      = .ok (⟨.cuda, 3, 0⟩, ⟨[⟨[0, 0, 0], .mock_cuda_deleter⟩], 16⟩) ∧
    ∃ s h1 b, Storage.ctor 3 .cuda (⟨[], 16⟩ : Heap Int) = .ok (s, h1) ∧
      s.device_ = .cuda ∧ s.size_ = 3 ∧
      (⟨[], 16⟩ : Heap Int).bufs[s.data]? = none ∧ h1.bufs[s.data]? = some b ∧
      b.cells.length = 3 ∧
      b.deleter = (if DeviceType.cuda = .cpu then .cpu_deleter else .mock_cuda_deleter) :=
  ⟨(storage_ctor_device Int 3 ⟨2⟩ ⟨[], 16⟩).1.mpr (by decide), by decide,
    (storage_ctor_device Int 3 .cuda ⟨[], 16⟩).2 (Or.inr rfl) (by decide)⟩

/-! ## Moving -/

/-- C14. The move constructor and the move assignment give a tensor with the shape,
strides, offset, contiguity flag and buffer handle the source had, so that every index
tuple resolves in the destination to the lvalue it resolved to in the source. -/
theorem move_transfers_fields (A self : Tensor) (same : Bool)
    (hsame : same = true → self = A) :
    (same_view (Tensor.ctor_move A) A ∧
      ∀ indices, (Tensor.ctor_move A).call indices = A.call indices ∧
        (Tensor.ctor_move A).call_const indices = A.call_const indices) ∧
    (same_view (Tensor.assign_move self A same) A ∧
      ∀ indices, (Tensor.assign_move self A same).call indices = A.call indices ∧
        (Tensor.assign_move self A same).call_const indices = A.call_const indices) := by
  have h1 : Tensor.ctor_move A = A := rfl
  have h2 : Tensor.assign_move self A same = A := by
    cases same with
    | false => rfl
    | true => exact hsame rfl
  rw [h1, h2]
  exact ⟨⟨⟨rfl, rfl, rfl, rfl, rfl⟩, fun _ => ⟨rfl, rfl⟩⟩,
    ⟨rfl, rfl, rfl, rfl, rfl⟩, fun _ => ⟨rfl, rfl⟩⟩

set_option maxRecDepth 8000 in
/-- An instance of C14: a view with offset 5 and strides `[10, 1]` moved into another
tensor still resolves `(1, 2)` to position 17. -/
theorem move_transfers_fields_witness :
    Tensor.assign_move ⟨[], [], ⟨.cpu, 0, 3⟩, 0, true⟩ ⟨[3, 4], [10, 1], ⟨.cpu, 64, 0⟩, 5, false⟩
        false = ⟨[3, 4], [10, 1], ⟨.cpu, 64, 0⟩, 5, false⟩ ∧
    (Tensor.ctor_move ⟨[3, 4], [10, 1], ⟨.cpu, 64, 0⟩, 5, false⟩).call [1, 2] = .ok ⟨0, 17⟩ ∧
    (Tensor.assign_move ⟨[], [], ⟨.cpu, 0, 3⟩, 0, true⟩
        ⟨[3, 4], [10, 1], ⟨.cpu, 64, 0⟩, 5, false⟩ false).call [1, 2] = .ok ⟨0, 17⟩ := by
  have h := move_transfers_fields ⟨[3, 4], [10, 1], ⟨.cpu, 64, 0⟩, 5, false⟩
    ⟨[], [], ⟨.cpu, 0, 3⟩, 0, true⟩ false (by decide)
  have h17 : Tensor.call ⟨[3, 4], [10, 1], ⟨.cpu, 64, 0⟩, 5, false⟩ [1, 2] = .ok ⟨0, 17⟩ := by
    decide
  exact ⟨by decide, (h.1.2 [1, 2]).1.trans h17, (h.2.2 [1, 2]).1.trans h17⟩

end FlashTensor

namespace FlashTensor

/-! ## Indexing a fresh tensor -/

set_option maxRecDepth 8000 in
/-- C15. The shape-only constructor does not give in-bounds positions for every shape.
On the shape `[2, 3]` it never returns a tensor, the second store of the scan falling
outside the one-element strides vector.  Scanned into a vector of the right length, the
strides of the shape `[2, 2147483648]`, whose product `4294967296` fits an `int64_t`, are
`[-2147483648, 1]`, and the in-range index `(1, 0)` resolves to the position
`-2147483648`, before the buffer. -/
theorem ctor_shape_position_defect :
    (∀ (T : Type) [Inhabited T] (device : DeviceType) (h : Heap T) (p : Tensor × Heap T),
      Tensor.ctor_shape [2, 3] device h ≠ .ok p) ∧
    compute_size [2, 2147483648] = 4294967296 ∧
    compute_strides [2, 2147483648] [0, 0] = .ok [-2147483648, 1] ∧
    Tensor.call ⟨[2, 2147483648], [-2147483648, 1], ⟨.cpu, 4294967296, 0⟩, 0, true⟩ [1, 0]
      = .ok ⟨0, -2147483648⟩ :=
  ⟨fun _ _ device h p => ctor_shape_rank_two [2, 3] device h (by decide) p,
    by decide, by decide, by decide⟩

set_option maxRecDepth 8000 in
/-- C16. The shape-only constructor does not give injective indexing for every shape.
On the shape `[3, 2]` it never returns a tensor.  Scanned into a vector of the right
length, the strides of the shape `[2, 4294967296]` are `[0, 1]`, and the distinct
in-range indices `(0, 0)` and `(1, 0)` resolve to the same position 0. -/
theorem ctor_shape_alias_defect :
    (∀ (T : Type) [Inhabited T] (device : DeviceType) (h : Heap T) (p : Tensor × Heap T),
      Tensor.ctor_shape [3, 2] device h ≠ .ok p) ∧
    compute_strides [2, 4294967296] [0, 0] = .ok [0, 1] ∧
    Tensor.call ⟨[2, 4294967296], [0, 1], ⟨.cpu, 8589934592, 0⟩, 0, true⟩ [0, 0] = .ok ⟨0, 0⟩ ∧
    Tensor.call ⟨[2, 4294967296], [0, 1], ⟨.cpu, 8589934592, 0⟩, 0, true⟩ [1, 0] = .ok ⟨0, 0⟩ :=
  ⟨fun _ _ device h p => ctor_shape_rank_two [3, 2] device h (by decide) p,
    by decide, by decide, by decide⟩

set_option maxRecDepth 8000 in
/-- C17. The general check does not return true on what `compute_strides` produces for
every shape.  For the shape `[0, 2147483648]` the scan into the constructor's one-element
strides vector stores outside it; scanned into a vector of the right length the strides
are `[-2147483648, 1]` and `check_contiguous` returns false.  The same holds for the
shape `[2, 65536, 65536]`, with strides `[0, 65536, 1]`. -/
theorem check_contiguous_after_compute_strides_defect :
    compute_strides [0, 2147483648] (strides_initializer [0, 2147483648])
      = .error .out_of_bounds ∧
    compute_strides [0, 2147483648] [0, 0] = .ok [-2147483648, 1] ∧
    check_contiguous [0, 2147483648] [-2147483648, 1] = .ok false ∧
    compute_strides [2, 65536, 65536] [0, 0, 0] = .ok [0, 65536, 1] ∧
    check_contiguous [2, 65536, 65536] [0, 65536, 1] = .ok false :=
  ⟨by decide, by decide, by decide, by decide, by decide⟩

set_option maxRecDepth 8000 in
/-- C18. Stride and size computations do not agree for every shape whose product fits
an `int64_t`.  For the shape `[1, 2147483648]` the scan into the constructor's one-element
strides vector stores outside it; scanned into a vector of the right length the strides
are `[-2147483648, 1]`, so `shape[0] * strides[0]` is `-2147483648` while `compute_size`
returns `2147483648`. -/
theorem compute_strides_compute_size_defect :
    compute_strides [1, 2147483648] (strides_initializer [1, 2147483648])
      = .error .out_of_bounds ∧
    compute_strides [1, 2147483648] [0, 0] = .ok [-2147483648, 1] ∧
    mul64 1 (-2147483648) = -2147483648 ∧
    compute_size [1, 2147483648] = 2147483648 ∧
    in_int64 (([1, 2147483648] : DimVector).prod) :=
  ⟨by decide, by decide, by decide, by decide, by decide⟩

/-! ## Termination and reads of the contiguity check -/

theorem check_contiguous_loop_log_spec (shape strides : DimVector)
    (hlen : strides.length = shape.length) :
    ∀ k, k ≤ shape.length → ∀ (z : Int) (tr : Trace),
      ∃ b tr1, check_contiguous_loop_log shape strides k z tr = (.ok b, tr1) ∧
        check_contiguous_loop shape strides k z = .ok b ∧
        tr1.iterations ≤ tr.iterations + k ∧
        (∀ i ∈ tr1.shape_reads, i ∈ tr.shape_reads ∨ i < k) ∧
        (∀ i ∈ tr1.strides_reads, i ∈ tr.strides_reads ∨ i < k) := by
  intro k
  induction k with
  | zero =>
    intro _ z tr
    exact ⟨true, tr, rfl, rfl, le_rfl, fun i hi => Or.inl hi, fun i hi => Or.inl hi⟩
  | succ k ih =>
    intro hk z tr
    have hk1 : k < shape.length := hk
    have hk2 : k < strides.length := by omega
    simp only [check_contiguous_loop_log, check_contiguous_loop,
      List.getElem?_eq_getElem hk1, List.getElem?_eq_getElem hk2]
    by_cases hd : shape[k] = 1
    · rw [if_neg (by simpa using hd), if_neg (by simpa using hd)]
      obtain ⟨b, tr1, h1, h2, h3, h4, h5⟩ :=
        ih (by omega) z ⟨tr.iterations + 1, k :: tr.shape_reads, tr.strides_reads⟩
      refine ⟨b, tr1, h1, h2, by simp only at h3; omega, ?_, ?_⟩
      · intro i hi
        rcases h4 i hi with h | h
        · rcases List.mem_cons.mp h with h | h
          · exact Or.inr (by omega)
          · exact Or.inl h
        · exact Or.inr (by omega)
      · intro i hi
        rcases h5 i hi with h | h
        · exact Or.inl h
        · exact Or.inr (by omega)
    · rw [if_pos hd, if_pos hd]
      by_cases hs : strides[k] = z
      · rw [if_neg (by simpa using hs), if_neg (by simpa using hs)]
        obtain ⟨b, tr1, h1, h2, h3, h4, h5⟩ :=
          ih (by omega) (mul64 z shape[k])
            ⟨tr.iterations + 1, k :: tr.shape_reads, k :: tr.strides_reads⟩
        refine ⟨b, tr1, h1, h2, by simp only at h3; omega, ?_, ?_⟩
        · intro i hi
          rcases h4 i hi with h | h
          · rcases List.mem_cons.mp h with h | h
            · exact Or.inr (by omega)
            · exact Or.inl h
          · exact Or.inr (by omega)
        · intro i hi
          rcases h5 i hi with h | h
          · rcases List.mem_cons.mp h with h | h
            · exact Or.inr (by omega)
            · exact Or.inl h
          · exact Or.inr (by omega)
      · rw [if_pos hs, if_pos hs]
        refine ⟨false, _, rfl, rfl, by simp only; omega, ?_, ?_⟩
        · intro i hi
          rcases List.mem_cons.mp hi with h | h
          · exact Or.inr (by omega)
          · exact Or.inl h
        · intro i hi
          rcases List.mem_cons.mp hi with h | h
          · exact Or.inr (by omega)
          · exact Or.inl h

/-- C19. For shape and strides of equal length `n`, the loop counter of
`check_contiguous` starts at `n - 1` (at `-1` for rank 0), the loop runs at most `n`
iterations and returns, and it reads `shape_` and `strides_` at positions below `n`
only. -/
theorem check_contiguous_total_in_range (shape strides : DimVector)
    (hlen : strides.length = shape.length) (hmax : shape.length < 2 ^ 63) :
    check_contiguous_start shape = (shape.length : Int) - 1 ∧
    ∃ b tr, check_contiguous_log shape strides = (.ok b, tr) ∧
      check_contiguous shape strides = .ok b ∧
      tr.iterations ≤ shape.length ∧
      (∀ i ∈ tr.shape_reads, i < shape.length) ∧
      (∀ i ∈ tr.strides_reads, i < shape.length) := by
  constructor
  · unfold check_contiguous_start wrap64
    norm_num at hmax ⊢
    omega
  · obtain ⟨b, tr, h1, h2, h3, h4, h5⟩ :=
      check_contiguous_loop_log_spec shape strides hlen shape.length le_rfl 1 ⟨0, [], []⟩
    refine ⟨b, tr, ?_, ?_, by simpa using h3, ?_, ?_⟩
    · rw [check_contiguous_log, check_contiguous_start_succ shape hmax, h1]
    · rw [check_contiguous, check_contiguous_start_succ shape hmax, h2]
    · intro i hi
      rcases h4 i hi with h | h
      · simp at h
      · exact h
    · intro i hi
      rcases h5 i hi with h | h
      · simp at h
      · exact h

set_option maxRecDepth 8000 in
/-- Instances of C19: rank 0, where the counter starts at `-1` and nothing is read, and
the shape `[3, 1, 4]`, where the stride of the size-1 dimension is not read. -/
theorem check_contiguous_total_in_range_witness :
    check_contiguous_log [] [] = (.ok true, ⟨0, [], []⟩) ∧
    check_contiguous_log [3, 1, 4] [4, 99, 1] = (.ok true, ⟨3, [0, 1, 2], [0, 2]⟩) ∧
    check_contiguous_start [] = ((([] : DimVector).length : Nat) : Int) - 1 ∧
    ∃ b tr, check_contiguous_log [] [] = (.ok b, tr) ∧
      check_contiguous [] [] = .ok b ∧
      tr.iterations ≤ ([] : DimVector).length ∧
      (∀ i ∈ tr.shape_reads, i < ([] : DimVector).length) ∧
      (∀ i ∈ tr.strides_reads, i < ([] : DimVector).length) :=
  ⟨by decide, by decide, check_contiguous_total_in_range [] [] rfl (by norm_num)⟩

end FlashTensor
